import Mathlib

/-
  Verification development for the Remimazolam TCI V3.3 bolus + continuous
  infusion engine (file `remimazolam-v3.3.js` of the repository).

  The JavaScript numerical core is shallowly embedded over ℚ: JS numbers are
  modelled as exact rationals, so every arithmetic statement below is about the
  real-number semantics of the source formulas.  The one place where the
  binary64 (IEEE double) semantics of JS is itself the subject of a claim — the
  grid generation of the rate optimizer, which accumulates `rate += 0.1` — is
  additionally modelled with an exact round-to-nearest-even binary64 adder on
  scaled integers (`fpAddScaled`, `testRatesFPScaled`, `testRatesFP` below).

  The derivation of patient-specific PK parameters (`PKParameterCalculator`)
  calls `Math.pow` with fractional exponents and the external `MasuiKe0Calculator`
  oracle (a file not part of this core); both are irrational/opaque, so the
  protocol calculator is parametrised by an abstract `pkOf : Patient → PKParameters`
  oracle, exactly as the spec treats ke0 estimation as an external collaborator.
-/

namespace RemiTCI

/- Constants of `class MasuiModelConstants` (source lines 4–35).  The θ
pharmacokinetic regression coefficients are omitted because the PK-parameter
derivation (which is the only consumer) is abstracted behind the `pkOf` oracle.
`DEFAULT_UPPER_THRESHOLD_FACTOR` is the source's upper-threshold multiplier
constant (value 1.2). -/
namespace MasuiModelConstants

def DEFAULT_TARGET_REACH_TIME : ℚ := 20
def DEFAULT_UPPER_THRESHOLD_FACTOR : ℚ := 12/10
def OPTIMIZED_REDUCTION_FACTOR : ℚ := 7/10
def SIMULATION_DURATION : ℚ := 180
def TIME_STEP : ℚ := 1/10
def MIN_INFUSION_RATE : ℚ := 1/10
def MAX_INFUSION_RATE : ℚ := 6
def MIN_BOLUS_DOSE : ℚ := 1
def MAX_BOLUS_DOSE : ℚ := 15
def OPTIMIZATION_STEP : ℚ := 1/10
def OPTIMIZATION_MIN_RATE : ℚ := 3/10
def OPTIMIZATION_MAX_RATE : ℚ := 4

end MasuiModelConstants

open MasuiModelConstants

/-- `class PKParameters` (source lines 78–94): compartment volumes, clearances
and the effect-site equilibration constant. -/
structure PKParameters where
  v1 : ℚ
  v2 : ℚ
  v3 : ℚ
  cl : ℚ
  q2 : ℚ
  q3 : ℚ
  ke0 : ℚ
deriving DecidableEq

def PKParameters.getK10 (p : PKParameters) : ℚ := p.cl / p.v1
def PKParameters.getK12 (p : PKParameters) : ℚ := p.q2 / p.v1
def PKParameters.getK21 (p : PKParameters) : ℚ := p.q2 / p.v2
def PKParameters.getK13 (p : PKParameters) : ℚ := p.q3 / p.v1
def PKParameters.getK31 (p : PKParameters) : ℚ := p.q3 / p.v3

/-- Compartment masses a1/a2/a3 (mg).  Also used for the derivative triples
(da1dt, da2dt, da3dt) inside the RK4 stepper, mirroring the source's plain
`{a1, a2, a3}` / `{da1dt, da2dt, da3dt}` object literals. -/
structure SystemState where
  a1 : ℚ
  a2 : ℚ
  a3 : ℚ
deriving DecidableEq

/-- `BolusOptimizer.updateSystemStateRK4` (source lines 213–249): one fixed
step of classical 4th-order Runge–Kutta over the three-compartment mammillary
derivative kernel, with the infusion rate held constant across the stages. -/
def updateSystemStateRK4 (pk : PKParameters) (state : SystemState)
    (infusionRateMgMin dt : ℚ) : SystemState :=
  let k10 := pk.getK10
  let k12 := pk.getK12
  let k21 := pk.getK21
  let k13 := pk.getK13
  let k31 := pk.getK31
  let derivatives := fun (s : SystemState) =>
    SystemState.mk
      (infusionRateMgMin - (k10 + k12 + k13) * s.a1 + k21 * s.a2 + k31 * s.a3)
      (k12 * s.a1 - k21 * s.a2)
      (k13 * s.a1 - k31 * s.a3)
  let k1 := derivatives state
  let k2 := derivatives
    (SystemState.mk (state.a1 + 1/2 * dt * k1.a1) (state.a2 + 1/2 * dt * k1.a2)
      (state.a3 + 1/2 * dt * k1.a3))
  let k3 := derivatives
    (SystemState.mk (state.a1 + 1/2 * dt * k2.a1) (state.a2 + 1/2 * dt * k2.a2)
      (state.a3 + 1/2 * dt * k2.a3))
  let k4 := derivatives
    (SystemState.mk (state.a1 + dt * k3.a1) (state.a2 + dt * k3.a2)
      (state.a3 + dt * k3.a3))
  SystemState.mk
    (state.a1 + dt / 6 * (k1.a1 + 2 * k2.a1 + 2 * k3.a1 + k4.a1))
    (state.a2 + dt / 6 * (k1.a2 + 2 * k2.a2 + 2 * k3.a2 + k4.a2))
    (state.a3 + dt / 6 * (k1.a3 + 2 * k2.a3 + 2 * k3.a3 + k4.a3))

/-- Result of `BolusOptimizer.calculateBolusInitialState` (source lines 133–145). -/
structure BolusState where
  a1 : ℚ
  a2 : ℚ
  a3 : ℚ
  plasmaConc : ℚ
  effectSiteConc : ℚ
deriving DecidableEq

/-- `BolusOptimizer.calculateBolusInitialState`: the bolus is distributed
instantly into the central compartment; the effect site starts at 0. -/
def calculateBolusInitialState (pk : PKParameters) (bolusDoseMg : ℚ) : BolusState :=
  { a1 := bolusDoseMg
    a2 := 0
    a3 := 0
    plasmaConc := bolusDoseMg / pk.v1
    effectSiteConc := 0 }

/-- The inner loop of `BolusOptimizer.simulateBolusAndContinuous` (source lines
198–207): each iteration samples plasma from the state before the step, does the
explicit-Euler effect-site update, then advances the compartments by RK4. -/
def bolusSimLoop (pk : PKParameters) (infusionRateMgMin : ℚ) :
    ℕ → SystemState × ℚ → SystemState × ℚ
  | 0, sc => sc
  | n + 1, (state, currentCe) =>
      let plasmaConc := state.a1 / pk.v1
      let ce2 := currentCe + TIME_STEP * (pk.ke0 * (plasmaConc - currentCe))
      bolusSimLoop pk infusionRateMgMin n
        (updateSystemStateRK4 pk state infusionRateMgMin TIME_STEP, ce2)

/-- `BolusOptimizer.simulateBolusAndContinuous` (source lines 190–210): the
effect-site concentration reached `targetTime` minutes after a bolus followed
by a constant continuous infusion. -/
def simulateBolusAndContinuous (pk : PKParameters) (weight : ℚ)
    (bolusDoseMg continuousRate targetTime : ℚ) : ℚ :=
  let bolusState := calculateBolusInitialState pk bolusDoseMg
  let infusionRateMgMin := continuousRate * weight / 60
  let numSteps := (⌊targetTime / TIME_STEP⌋).toNat
  (bolusSimLoop pk infusionRateMgMin numSteps
    (SystemState.mk bolusState.a1 bolusState.a2 bolusState.a3,
      bolusState.effectSiteConc)).2

/-- One row of the optimizer's diagnostic candidate table (source lines 165–170). -/
structure OptCandidate where
  rate : ℚ
  ceAtTarget : ℚ
  error : ℚ
  relativeError : ℚ
deriving DecidableEq

/-- Result record of `optimizeContinuousRate` (source lines 180–186).  `error`
and `relativeError` are `Option ℚ` because the JS incumbent starts at
`Infinity`; `none` models that sentinel (it is returned only for an empty grid,
which never happens for the actual constants). -/
structure OptimizationResult where
  optimalRate : ℚ
  predictedCe : ℚ
  error : Option ℚ
  relativeError : Option ℚ
  allResults : List OptCandidate

/-- JS comparison `error < bestError` where `bestError` may be the `Infinity`
sentinel: every finite error beats `none`. -/
def beats (e : ℚ) : Option ℚ → Bool
  | none => true
  | some b => decide (e < b)

/-- The candidate row pushed for one scanned rate (source lines 161–170). -/
def candOf (simCe : ℚ → ℚ) (targetCe r : ℚ) : OptCandidate :=
  let ceAtTarget := simCe r
  let error := |ceAtTarget - targetCe|
  { rate := r
    ceAtTarget := ceAtTarget
    error := error
    relativeError := error / targetCe * 100 }

/-- The scan loop of `optimizeContinuousRate` (source lines 160–176): walk the
candidate list, push a diagnostic row for each rate, and replace the incumbent
exactly when the new error is strictly smaller. -/
def optScan (simCe : ℚ → ℚ) (targetCe : ℚ) :
    List ℚ → List OptCandidate × ℚ × Option ℚ → List OptCandidate × ℚ × Option ℚ
  | [], acc => acc
  | testRate :: rest, (results, bestRate, bestError) =>
      let c := candOf simCe targetCe testRate
      if beats c.error bestError then
        optScan simCe targetCe rest (results ++ [c], testRate, some c.error)
      else
        optScan simCe targetCe rest (results ++ [c], bestRate, bestError)

/-- The candidate-generation loop (source lines 149–154), parametrised by the
addition used for `rate += step`: exact rational addition for the real-number
semantics, `fpAdd` for the binary64 semantics.  The JS loop has no fuel; the
`fuel` argument is a step bound, chosen large enough that the embedded loop
runs to its natural termination for the concrete constants used below. -/
def buildRatesAux (add : ℚ → ℚ → ℚ) (step maxRate : ℚ) :
    ℕ → ℚ → List ℚ
  | 0, _ => []
  | fuel + 1, rate =>
      if rate ≤ maxRate then rate :: buildRatesAux add step maxRate fuel (add rate step)
      else []

/-- The scanned candidate grid of `optimizeContinuousRate` under exact rational
arithmetic: `for (rate = 0.3; rate <= 4.0; rate += 0.1)`. -/
def testRates : List ℚ :=
  buildRatesAux (fun r s => r + s) OPTIMIZATION_STEP OPTIMIZATION_MAX_RATE 100
    OPTIMIZATION_MIN_RATE

/-- First-strict-improvement fold over the remaining rates: the functional core
of the incumbent-replacement loop, used to state and prove what `optScan`
returns. -/
def runMin (simCe : ℚ → ℚ) (targetCe : ℚ) : ℚ → List ℚ → ℚ
  | br, [] => br
  | br, r :: rest =>
      if |simCe r - targetCe| < |simCe br - targetCe| then runMin simCe targetCe r rest
      else runMin simCe targetCe br rest

/-- `BolusOptimizer.optimizeContinuousRate` (source lines 148–187). -/
def optimizeContinuousRate (pk : PKParameters) (weight : ℚ)
    (bolusDoseMg targetCe targetReachTime : ℚ) : OptimizationResult :=
  let simCe := fun rate => simulateBolusAndContinuous pk weight bolusDoseMg rate targetReachTime
  let scanned := optScan simCe targetCe testRates ([], 1, none)
  let predictedCe := simCe scanned.2.1
  { optimalRate := scanned.2.1
    predictedCe := predictedCe
    error := scanned.2.2
    relativeError := scanned.2.2.map (fun e => e / targetCe * 100)
    allResults := scanned.1 }

/-- `thresholdParams` as consumed by `simulateCompleteProtocol` (source lines
262–263): target concentration, upper-threshold multiplier
(`upperThresholdRatio` in the source; renamed here), reduction factor. -/
structure ThresholdParams where
  targetCe : ℚ
  upperThresholdFactor : ℚ
  reductionFactor : ℚ
deriving DecidableEq

/-- The local constant `minimumInterval = 5.0` of `simulateCompleteProtocol`
(source line 264): minimum minutes between two dosage adjustments. -/
def minimumInterval : ℚ := 5

/-- `lastAdjustmentTime` starts at `-minimumInterval` (source line 273) so the
very first threshold crossing is already past the refractory gate. -/
def initialLastAdjustmentTime : ℚ := -minimumInterval

/-- One entry of the `dosageAdjustments` log (source lines 299–307).  The
constant string field `type: 'threshold_reduction'` is omitted. -/
structure DosageAdjustment where
  time : ℚ
  oldRate : ℚ
  newRate : ℚ
  ceAtEvent : ℚ
  reductionPercent : ℚ
  adjustmentNumber : ℕ
deriving DecidableEq

/-- One entry of `timeSeriesData` (source lines 313–323).  Over ℚ the stored
time `parseFloat(currentTime.toFixed(1))` is exactly `i * TIME_STEP`, since
`i * 0.1` already has one decimal digit. -/
structure TimePoint where
  time : ℚ
  ce : ℚ
  plasma : ℚ
  infusionRate : ℚ
  targetCe : ℚ
  upperThreshold : ℚ
  adjustmentNumber : ℕ
  isBolus : Bool
  timeSinceLastAdjustment : ℚ
deriving DecidableEq

/-- The mutable loop variables of `simulateCompleteProtocol` (source lines
266–274). -/
structure ProtocolLoopState where
  state : SystemState
  currentCe : ℚ
  currentRate : ℚ
  lastAdjustmentTime : ℚ
  adjustmentCount : ℕ
  timeSeriesData : List TimePoint
  dosageAdjustments : List DosageAdjustment

/- One iteration `i` of the `simulateCompleteProtocol` loop (source lines
278–329) is factored into named pieces so the loop invariants can name them:
`stepTime` is `currentTime = i * timeStep` (line 279), `stepPlasma` is
`plasmaConc` (line 283), `stepCe` the effect-site update skipped at i = 0
(lines 286–289), `adjustTriggered` the debounced threshold test (lines
292–294), `stepEvent` the logged adjustment (lines 296–307), `stepSample` the
pushed data point (lines 313–323), and `stepState` the RK4 advance guarded at
the last iteration (lines 326–328), which uses the infusion rate computed from
the PRE-adjustment `currentRate` (line 280). -/

def stepTime (i : ℕ) : ℚ := (i : ℚ) * TIME_STEP

def stepPlasma (pk : PKParameters) (st : ProtocolLoopState) : ℚ := st.state.a1 / pk.v1

/-- Effect-site explicit-Euler update, applied only for `0 < i` (the source
skips it on the first iteration). -/
def stepCe (pk : PKParameters) (st : ProtocolLoopState) (i : ℕ) : ℚ :=
  if 0 < i then st.currentCe + TIME_STEP * (pk.ke0 * (stepPlasma pk st - st.currentCe))
  else st.currentCe

/-- The debounced threshold-reduction guard (source lines 292–294). -/
def adjustTriggered (pk : PKParameters) (tp : ThresholdParams)
    (st : ProtocolLoopState) (i : ℕ) : Prop :=
  tp.targetCe * tp.upperThresholdFactor ≤ stepCe pk st i ∧
  minimumInterval ≤ stepTime i - st.lastAdjustmentTime ∧
  MIN_INFUSION_RATE < st.currentRate

instance (pk : PKParameters) (tp : ThresholdParams) (st : ProtocolLoopState)
    (i : ℕ) : Decidable (adjustTriggered pk tp st i) := by
  unfold adjustTriggered
  infer_instance

/-- The `DosageAdjustment` pushed when the guard fires (source lines 296–307). -/
def stepEvent (pk : PKParameters) (tp : ThresholdParams) (st : ProtocolLoopState)
    (i : ℕ) : DosageAdjustment :=
  { time := stepTime i
    oldRate := st.currentRate
    newRate := max MIN_INFUSION_RATE (st.currentRate * tp.reductionFactor)
    ceAtEvent := stepCe pk st i
    reductionPercent :=
      (st.currentRate - max MIN_INFUSION_RATE (st.currentRate * tp.reductionFactor)) /
        st.currentRate * 100
    adjustmentNumber := st.adjustmentCount + 1 }

/-- The `timeSeriesData` point pushed each iteration (source lines 313–323);
`rate`, `count` and `lastAdj` are the values of `currentRate`,
`adjustmentCount` and `lastAdjustmentTime` after the threshold test. -/
def stepSample (pk : PKParameters) (tp : ThresholdParams) (st : ProtocolLoopState)
    (i : ℕ) (rate : ℚ) (count : ℕ) (lastAdj : ℚ) : TimePoint :=
  { time := stepTime i
    ce := stepCe pk st i
    plasma := stepPlasma pk st
    infusionRate := rate
    targetCe := tp.targetCe
    upperThreshold := tp.targetCe * tp.upperThresholdFactor
    adjustmentNumber := count
    isBolus := decide (i = 0)
    timeSinceLastAdjustment := stepTime i - lastAdj }

/-- RK4 advance with the pre-adjustment infusion rate, skipped on the last
iteration (source lines 326–328). -/
def stepState (pk : PKParameters) (weight : ℚ) (numSteps : ℕ)
    (st : ProtocolLoopState) (i : ℕ) : SystemState :=
  if i < numSteps - 1 then
    updateSystemStateRK4 pk st.state (st.currentRate * weight / 60) TIME_STEP
  else st.state

/-- One iteration of `simulateCompleteProtocol` (source lines 278–329): the
sample push and RK4 advance are written in both branches of the threshold
test, matching the source's sequential variable updates. -/
def protocolStep (pk : PKParameters) (weight : ℚ) (tp : ThresholdParams)
    (numSteps : ℕ) (st : ProtocolLoopState) (i : ℕ) : ProtocolLoopState :=
  if adjustTriggered pk tp st i then
    { state := stepState pk weight numSteps st i
      currentCe := stepCe pk st i
      currentRate := (stepEvent pk tp st i).newRate
      lastAdjustmentTime := stepTime i
      adjustmentCount := st.adjustmentCount + 1
      timeSeriesData := st.timeSeriesData ++
        [stepSample pk tp st i (stepEvent pk tp st i).newRate (st.adjustmentCount + 1)
          (stepTime i)]
      dosageAdjustments := st.dosageAdjustments ++ [stepEvent pk tp st i] }
  else
    { state := stepState pk weight numSteps st i
      currentCe := stepCe pk st i
      currentRate := st.currentRate
      lastAdjustmentTime := st.lastAdjustmentTime
      adjustmentCount := st.adjustmentCount
      timeSeriesData := st.timeSeriesData ++
        [stepSample pk tp st i st.currentRate st.adjustmentCount st.lastAdjustmentTime]
      dosageAdjustments := st.dosageAdjustments }

/-- Initial loop state of `simulateCompleteProtocol` (source lines 266–274),
built from `calculateBolusInitialState`. -/
def protoInit (pk : PKParameters) (bolusDoseMg initialContinuousRate : ℚ) :
    ProtocolLoopState :=
  let bolusState := calculateBolusInitialState pk bolusDoseMg
  { state := SystemState.mk bolusState.a1 bolusState.a2 bolusState.a3
    currentCe := bolusState.effectSiteConc
    currentRate := initialContinuousRate
    lastAdjustmentTime := initialLastAdjustmentTime
    adjustmentCount := 0
    timeSeriesData := []
    dosageAdjustments := [] }

/-- The first `n` iterations of the `simulateCompleteProtocol` loop.
`numSteps` is the loop bound used by the last-iteration RK4 guard. -/
def protoRun (pk : PKParameters) (weight : ℚ) (tp : ThresholdParams)
    (bolusDoseMg initialContinuousRate : ℚ) (numSteps n : ℕ) : ProtocolLoopState :=
  (List.range n).foldl (protocolStep pk weight tp numSteps)
    (protoInit pk bolusDoseMg initialContinuousRate)

/-- `floor(SIMULATION_DURATION / TIME_STEP) + 1` (source line 276); evaluates
to 1801 both over ℚ and in binary64 (where `180/0.1` is exactly `1800.0`). -/
def protoNumSteps : ℕ := (⌊SIMULATION_DURATION / TIME_STEP⌋).toNat + 1

/-- `evaluatePerformance` output (source lines 392–399).  `avgDeviation` and
`convergenceTime` are `Option ℚ`: `none` models the JS `Infinity` returned
when the maintenance window is empty / the target band is never reached. -/
structure PerformanceMetrics where
  finalCe : ℚ
  maxCe : ℚ
  avgDeviation : Option ℚ
  targetAccuracy : ℚ
  stabilityIndex : ℚ
  convergenceTime : Option ℚ

/-- `BolusThresholdSimulator.evaluatePerformance` (source lines 342–400).
`Math.max(...)` over the (always nonempty in context) trajectory is the fold of
`max` from the head; `timeSeriesData[length-1]` is `getLast?` with an unused
default. -/
def evaluatePerformance (timeSeriesData : List TimePoint) (targetCe : ℚ) :
    PerformanceMetrics :=
  let maintenanceData := timeSeriesData.filter fun point => decide (60 ≤ point.time)
  if maintenanceData.length = 0 then
    { finalCe := 0, maxCe := 0, avgDeviation := none, targetAccuracy := 0,
      stabilityIndex := 0, convergenceTime := none }
  else
    let finalCe := ((timeSeriesData.getLast?).map TimePoint.ce).getD 0
    let maxCe :=
      match timeSeriesData.map TimePoint.ce with
      | [] => 0
      | c :: cs => cs.foldl max c
    let deviations := maintenanceData.map fun point => |point.ce - targetCe|
    let avgDeviation :=
      deviations.foldl (fun sum dev => sum + dev) 0 / (deviations.length : ℚ)
    let tolerance := targetCe * (1/10)
    let withinTolerance :=
      (maintenanceData.filter fun point => decide (|point.ce - targetCe| ≤ tolerance)).length
    let targetAccuracy := (withinTolerance : ℚ) / maintenanceData.length * 100
    let totalVariation :=
      ((maintenanceData.zip maintenanceData.tail).map
        (fun pr => |pr.2.ce - pr.1.ce|)).foldl (fun sum d => sum + d) 0
    let avgVariation := totalVariation / ((maintenanceData.length : ℚ) - 1)
    let stabilityIndex := max 0 (100 - avgVariation * 1000)
    let convergenceThreshold := targetCe * (1/20)
    let convergenceTime :=
      (timeSeriesData.find? fun point =>
        decide (|point.ce - targetCe| ≤ convergenceThreshold)).map TimePoint.time
    { finalCe := finalCe, maxCe := maxCe, avgDeviation := some avgDeviation,
      targetAccuracy := targetAccuracy, stabilityIndex := stabilityIndex,
      convergenceTime := convergenceTime }

/-- Return record of `simulateCompleteProtocol` (source lines 331–338). -/
structure SimulationOutput where
  timeSeriesData : List TimePoint
  dosageAdjustments : List DosageAdjustment
  performance : PerformanceMetrics
  bolusDose : ℚ
  initialContinuousRate : ℚ
  thresholdParams : ThresholdParams

/-- Packaging of the final loop state into the return record (source lines
331–338). -/
def mkSimulationOutput (final : ProtocolLoopState)
    (bolusDoseMg initialContinuousRate : ℚ) (tp : ThresholdParams) :
    SimulationOutput :=
  { timeSeriesData := final.timeSeriesData
    dosageAdjustments := final.dosageAdjustments
    performance := evaluatePerformance final.timeSeriesData tp.targetCe
    bolusDose := bolusDoseMg
    initialContinuousRate := initialContinuousRate
    thresholdParams := tp }

/-- `BolusThresholdSimulator.simulateCompleteProtocol` (source lines 261–339). -/
def simulateCompleteProtocol (pk : PKParameters) (weight : ℚ)
    (bolusDoseMg initialContinuousRate : ℚ) (tp : ThresholdParams) :
    SimulationOutput :=
  mkSimulationOutput
    (protoRun pk weight tp bolusDoseMg initialContinuousRate protoNumSteps protoNumSteps)
    bolusDoseMg initialContinuousRate tp

/-- `class Patient` (source lines 37–76).  `sex` and `asaPS` are the numeric
0/1 covariates of the source. -/
structure Patient where
  patientId : String
  age : ℚ
  weight : ℚ
  height : ℚ
  sex : ℚ
  asaPS : ℚ

def Patient.getBMI (p : Patient) : ℚ := p.weight / (p.height / 100) ^ 2

/-- Return value of `Patient.validate`. -/
structure ValidationResult where
  isValid : Bool
  errors : List String

/-- `Patient.validate` (source lines 51–75).  The error strings are
abbreviated (the source messages are Japanese and interpolate the BMI value);
only their presence matters.  The JS guard `!this.patientId ||
this.patientId.trim().length === 0` is the displayed disjunction. -/
def Patient.validate (p : Patient) : ValidationResult :=
  let errors : List String :=
    (if p.patientId = "" ∨ p.patientId.trim.length = 0 then ["patient id missing"] else []) ++
    (if p.age < 18 ∨ 80 < p.age then ["age out of range"] else []) ++
    (if p.weight < 40 ∨ 120 < p.weight then ["weight out of range"] else []) ++
    (if p.getBMI < 16 ∨ 40 < p.getBMI then ["bmi out of range"] else [])
  { isValid := decide (errors.length = 0), errors := errors }

/-- The optional `protocolParams` overrides of `calculateBolusProtocol`
(source lines 408, 435): JS object spread `{...defaultParams, ...protocolParams}`
lets a caller override any of the four default fields, including `targetCe`. -/
structure ProtocolOverrides where
  targetReachTime : Option ℚ
  upperThresholdFactor : Option ℚ
  reductionFactor : Option ℚ
  targetCe : Option ℚ

/-- The merged `finalParams` (source lines 429–435). -/
structure FinalParams where
  targetReachTime : ℚ
  upperThresholdFactor : ℚ
  reductionFactor : ℚ
  targetCe : ℚ
deriving DecidableEq

/-- Result bundle of `calculateBolusProtocol` (source lines 463–477).  The
wall-clock `calculationTimeMs`, the formatted `clinicalProtocol` step list and
the four-dose `comparisonData` sweep are presentation-layer outputs not touched
by any claim and are omitted. -/
structure BolusProtocolResult where
  patient : Patient
  pkParams : PKParameters
  bolusDose : ℚ
  targetCe : ℚ
  optimalContinuousRate : ℚ
  optimizationResult : OptimizationResult
  simulationData : List TimePoint
  dosageAdjustments : List DosageAdjustment
  protocolPerformance : PerformanceMetrics
  protocolParams : FinalParams

def exceptIsOk {ε α : Type} : Except ε α → Bool
  | .ok _ => true
  | .error _ => false

/-- `BolusProtocolCalculator.calculateBolusProtocol` (source lines 408–478).
`throw` is modelled as `Except.error`, raised by the three validation gates
before the optimizer or the simulator run.  `pkOf` abstracts
`PKParameterCalculator.calculatePKParameters` (source lines 96–123), whose
fractional powers and external `MasuiKe0Calculator` oracle are outside the
rational fragment; no claim depends on its values. -/
def calculateBolusProtocol (pkOf : Patient → PKParameters) (patient : Patient)
    (bolusDoseMg targetCe : ℚ) (protocolParams : ProtocolOverrides) :
    Except String BolusProtocolResult :=
  let validation := patient.validate
  if !validation.isValid then
    .error ("Patient validation failed: " ++ String.intercalate ", " validation.errors)
  else if bolusDoseMg < MIN_BOLUS_DOSE ∨ MAX_BOLUS_DOSE < bolusDoseMg then
    .error "bolus dose out of 1-15 mg range"
  else if targetCe < 1/2 ∨ 3 < targetCe then
    .error "target Ce out of 0.5-3.0 ug/mL range"
  else
    let finalParams : FinalParams :=
      { targetReachTime := protocolParams.targetReachTime.getD DEFAULT_TARGET_REACH_TIME
        upperThresholdFactor :=
          protocolParams.upperThresholdFactor.getD DEFAULT_UPPER_THRESHOLD_FACTOR
        reductionFactor := protocolParams.reductionFactor.getD OPTIMIZED_REDUCTION_FACTOR
        targetCe := protocolParams.targetCe.getD targetCe }
    let pkParams := pkOf patient
    let optimizationResult :=
      optimizeContinuousRate pkParams patient.weight bolusDoseMg targetCe
        finalParams.targetReachTime
    let simulationResult :=
      simulateCompleteProtocol pkParams patient.weight bolusDoseMg
        optimizationResult.optimalRate
        { targetCe := finalParams.targetCe
          upperThresholdFactor := finalParams.upperThresholdFactor
          reductionFactor := finalParams.reductionFactor }
    .ok
      { patient := patient
        pkParams := pkParams
        bolusDose := bolusDoseMg
        targetCe := targetCe
        optimalContinuousRate := optimizationResult.optimalRate
        optimizationResult := optimizationResult
        simulationData := simulationResult.timeSeriesData
        dosageAdjustments := simulationResult.dosageAdjustments
        protocolPerformance := simulationResult.performance
        protocolParams := finalParams }

/- ------------------------------------------------------------------
   Exact binary64 model of the grid-generation loop (for claim C4 only).

   JS numbers are IEEE-754 binary64.  Every value the loop
   `for (rate = 0.3; rate <= 4.0; rate += 0.1)` manipulates lies in
   [0.0625, 8), i.e. has binary exponent e ∈ [-4, 2], so every such double is
   an integer multiple of 2^-56.  A double value v is therefore encoded
   exactly as the integer z = v * 2^56 ("scaled representation"); comparison
   of doubles is comparison of the scaled integers, and binary64 addition is
   exact integer addition followed by rounding to the 53-bit mantissa
   granularity 2^(e+4) (round to nearest, ties to the even multiple).
   Integer arithmetic is used throughout because the kernel evaluates it
   directly.  The two literals:  `0.3` parses to the double
   5404319552844595 * 2^-54 (scaled: 21617278211378380) and `0.1` to
   7205759403792794 * 2^-56 (scaled: 7205759403792794); `4.0` is exact
   (scaled: 2^58).
   ------------------------------------------------------------------ -/

/-- Binary exponent of the positive double encoded by `z` (value `z * 2^-56`):
the unique `e` with `2^(e+56) ≤ z < 2^(e+57)`, found by scanning the window
`e ∈ [-6, 6]`, which covers every value the grid loop produces. -/
def fpExpScaled (z : ℤ) : ℤ :=
  (List.range 13).foldl
    (fun acc k =>
      if (2 : ℤ) ^ (k + 50 : ℕ) ≤ z ∧ z < (2 : ℤ) ^ (k + 51 : ℕ) then (k : ℤ) - 6 else acc)
    0

/-- Round the exact scaled value `z` (an integer multiple of 2^-56 in value) to
the nearest binary64 value: the mantissa granularity at exponent `e` is
2^(e-52), i.e. `2^(e+4)` in the scaled representation; ties go to the even
mantissa. -/
def fpRoundScaled (z : ℤ) : ℤ :=
  let e : ℤ := fpExpScaled z
  let g : ℤ := (2 : ℤ) ^ (e + 4).toNat
  let q : ℤ := z / g
  let r : ℤ := z % g
  let m : ℤ :=
    if 2 * r < g then q
    else if g < 2 * r then q + 1
    else if q % 2 = 0 then q else q + 1
  m * g

/-- Binary64 addition in the scaled representation: exact sum, then rounding —
the semantics of the JS `rate += 0.1`. -/
def fpAddScaled (x y : ℤ) : ℤ := fpRoundScaled (x + y)

/-- The double denoted by the JS literal `0.3` (`OPTIMIZATION_MIN_RATE`),
scaled by 2^56. -/
def fpMinRateScaled : ℤ := 21617278211378380

/-- The double denoted by the JS literal `0.1` (`OPTIMIZATION_STEP`),
scaled by 2^56. -/
def fpStepScaled : ℤ := 7205759403792794

/-- The candidate-generation loop of source lines 149–154 in the scaled
binary64 representation (same shape as `buildRatesAux`). -/
def buildRatesScaledAux (add : ℤ → ℤ → ℤ) (step maxRate : ℤ) :
    ℕ → ℤ → List ℤ
  | 0, _ => []
  | fuel + 1, rate =>
      if rate ≤ maxRate then
        rate :: buildRatesScaledAux add step maxRate fuel (add rate step)
      else []

/-- The scanned candidate grid of `optimizeContinuousRate` under the binary64
semantics JS actually executes, in the scaled representation
(`4.0` scales to `4 * 2^56 = 2^58`). -/
def testRatesFPScaled : List ℤ :=
  buildRatesScaledAux fpAddScaled fpStepScaled (2 ^ 58) 100 fpMinRateScaled

/-- The binary64 grid as rational values (`z * 2^-56`). -/
def testRatesFP : List ℚ :=
  testRatesFPScaled.map fun z => (z : ℚ) / 2 ^ 56

/-- Recursive conjunction of a predicate over a list (used in claim statements
so that they are single closed propositions rather than bounded quantifiers). -/
def ListAll {α : Type} (p : α → Prop) : List α → Prop
  | [] => True
  | x :: xs => p x ∧ ListAll p xs

/-- The score the optimizer minimises for a candidate rate `r`:
`|Ce(targetReachTime) − targetCe|` (source line 162). -/
def optErrf (pk : PKParameters) (weight bolusDoseMg targetCe targetReachTime r : ℚ) : ℚ :=
  |simulateBolusAndContinuous pk weight bolusDoseMg r targetReachTime - targetCe|

/-- The tail of the exact-arithmetic candidate grid (`testRates` is
`0.3 :: testRatesTail`, proved below). -/
def testRatesTail : List ℚ :=
  [4/10, 5/10, 6/10, 7/10, 8/10, 9/10, 10/10, 11/10, 12/10, 13/10,
   14/10, 15/10, 16/10, 17/10, 18/10, 19/10, 20/10, 21/10, 22/10, 23/10,
   24/10, 25/10, 26/10, 27/10, 28/10, 29/10, 30/10, 31/10, 32/10, 33/10,
   34/10, 35/10, 36/10, 37/10, 38/10, 39/10, 40/10]

/- ------------------------------------------------------------------
   Theorems.  First the generic list helpers, then the optimizer lemmas,
   then the protocol-loop invariants, then the claim theorems.
   ------------------------------------------------------------------ -/

theorem listAll_iff {α : Type} (p : α → Prop) :
    ∀ l : List α, ListAll p l ↔ ∀ x ∈ l, p x
  | [] => by simp [ListAll]
  | x :: xs => by simp [ListAll, listAll_iff p xs]

theorem listAll_append {α : Type} (p : α → Prop) (l₁ l₂ : List α) :
    ListAll p (l₁ ++ l₂) ↔ ListAll p l₁ ∧ ListAll p l₂ := by
  simp [listAll_iff, List.mem_append, or_imp, forall_and]

theorem listAll_imp {α : Type} {p q : α → Prop} (h : ∀ a, p a → q a) :
    ∀ {l : List α}, ListAll p l → ListAll q l := by
  intro l hl
  rw [listAll_iff] at hl ⊢
  exact fun x hx => h x (hl x hx)

set_option maxRecDepth 4000 in
theorem testRates_eq : testRates = 3/10 :: testRatesTail := by
  norm_num [testRates, testRatesTail, buildRatesAux, OPTIMIZATION_STEP,
    OPTIMIZATION_MIN_RATE, OPTIMIZATION_MAX_RATE]

set_option maxRecDepth 4000 in
theorem testRates_range_eq :
    testRates = (List.range 38).map
      (fun i => OPTIMIZATION_MIN_RATE + (i : ℚ) * OPTIMIZATION_STEP) := by
  rw [testRates_eq]
  norm_num [List.range_succ, testRatesTail, OPTIMIZATION_MIN_RATE, OPTIMIZATION_STEP]

/- From here on `testRates` is only handled through `testRates_eq` /
`testRates_range_eq`; making it irreducible keeps elaboration from trying to
evaluate the generation loop (whose ℚ arithmetic does not reduce). -/
attribute [irreducible] testRates

theorem candOf_rate (simCe : ℚ → ℚ) (t r : ℚ) : (candOf simCe t r).rate = r := rfl

theorem candOf_error (simCe : ℚ → ℚ) (t r : ℚ) :
    (candOf simCe t r).error = |simCe r - t| := rfl

theorem optScan_some (simCe : ℚ → ℚ) (t : ℚ) :
    ∀ (l : List ℚ) (res : List OptCandidate) (br : ℚ),
      optScan simCe t l (res, br, some |simCe br - t|) =
        (res ++ l.map (candOf simCe t), runMin simCe t br l,
          some |simCe (runMin simCe t br l) - t|) := by
  intro l
  induction l with
  | nil => intro res br; simp [optScan, runMin]
  | cons r rest ih =>
      intro res br
      by_cases h : |simCe r - t| < |simCe br - t|
      · have hb : beats (candOf simCe t r).error (some |simCe br - t|) = true := by
          simp only [candOf_error, beats]
          exact decide_eq_true h
        rw [optScan, runMin, if_pos hb, if_pos h, candOf_error,
          ih (res ++ [candOf simCe t r]) r]
        simp [List.map_cons]
      · have hb : ¬ beats (candOf simCe t r).error (some |simCe br - t|) = true := by
          simp only [candOf_error, beats]
          simp [h]
        rw [optScan, runMin, if_neg hb, if_neg h,
          ih (res ++ [candOf simCe t r]) br]
        simp [List.map_cons]

theorem optScan_start (simCe : ℚ → ℚ) (t r : ℚ) (rest : List ℚ) :
    optScan simCe t (r :: rest) ([], 1, none) =
      ((r :: rest).map (candOf simCe t), runMin simCe t r rest,
        some |simCe (runMin simCe t r rest) - t|) := by
  rw [optScan]
  have hb : beats (candOf simCe t r).error none = true := rfl
  rw [if_pos hb, candOf_error, optScan_some simCe t rest ([] ++ [candOf simCe t r]) r]
  simp [List.map_cons]

theorem runMin_mem (simCe : ℚ → ℚ) (t : ℚ) :
    ∀ (l : List ℚ) (br : ℚ), runMin simCe t br l ∈ br :: l := by
  intro l
  induction l with
  | nil => intro br; simp [runMin]
  | cons r rest ih =>
      intro br
      by_cases h : |simCe r - t| < |simCe br - t|
      · rw [runMin]
        simp only [h, if_true, ite_true]
        have := ih r
        simp only [List.mem_cons] at this ⊢
        tauto
      · rw [runMin]
        simp only [h, if_false, ite_false]
        have := ih br
        simp only [List.mem_cons] at this ⊢
        tauto

theorem runMin_le (simCe : ℚ → ℚ) (t : ℚ) :
    ∀ (l : List ℚ) (br x : ℚ), x ∈ br :: l →
      |simCe (runMin simCe t br l) - t| ≤ |simCe x - t| := by
  intro l
  induction l with
  | nil =>
      intro br x hx
      simp only [List.mem_cons, List.not_mem_nil, or_false] at hx
      subst hx
      simp [runMin]
  | cons r rest ih =>
      intro br x hx
      simp only [List.mem_cons] at hx
      by_cases h : |simCe r - t| < |simCe br - t|
      · rw [runMin, if_pos h]
        rcases hx with h1 | h1 | h1
        · subst h1
          exact le_trans (ih r r (by simp)) h.le
        · subst h1
          exact ih x x (by simp)
        · exact ih r x (by simp [h1])
      · rw [runMin, if_neg h]
        push_neg at h
        rcases hx with h1 | h1 | h1
        · subst h1
          exact ih x x (by simp)
        · subst h1
          exact le_trans (ih br br (by simp)) h
        · exact ih br x (by simp [h1])

theorem runMin_find (simCe : ℚ → ℚ) (t : ℚ) :
    ∀ (l : List ℚ) (br : ℚ),
      (br :: l).find?
          (fun x => decide (|simCe x - t| ≤ |simCe (runMin simCe t br l) - t|)) =
        some (runMin simCe t br l) := by
  intro l
  induction l with
  | nil =>
      intro br
      have : runMin simCe t br [] = br := rfl
      rw [this]
      exact List.find?_cons_of_pos [] (decide_eq_true le_rfl)
  | cons r rest ih =>
      intro br
      by_cases h : |simCe r - t| < |simCe br - t|
      · have hm : runMin simCe t br (r :: rest) = runMin simCe t r rest := by
          rw [runMin, if_pos h]
        rw [hm]
        have hbr : ¬ (|simCe br - t| ≤ |simCe (runMin simCe t r rest) - t|) := by
          have h1 : |simCe (runMin simCe t r rest) - t| ≤ |simCe r - t| :=
            runMin_le simCe t rest r r (by simp)
          push_neg
          exact lt_of_le_of_lt h1 h
        have h3 :
            List.find?
                (fun x => decide (|simCe x - t| ≤ |simCe (runMin simCe t r rest) - t|))
                (br :: r :: rest) =
              List.find?
                (fun x => decide (|simCe x - t| ≤ |simCe (runMin simCe t r rest) - t|))
                (r :: rest) :=
          List.find?_cons_of_neg _ (by simpa using hbr)
        rw [h3]
        exact ih r
      · have hm : runMin simCe t br (r :: rest) = runMin simCe t br rest := by
          rw [runMin, if_neg h]
        rw [hm]
        push_neg at h
        by_cases hbr : |simCe br - t| ≤ |simCe (runMin simCe t br rest) - t|
        · have h3 :
              List.find?
                  (fun x => decide (|simCe x - t| ≤ |simCe (runMin simCe t br rest) - t|))
                  (br :: rest) = some br :=
            List.find?_cons_of_pos _ (decide_eq_true hbr)
          have heq : br = runMin simCe t br rest :=
            Option.some.inj (h3.symm.trans (ih br))
          have h4 :
              List.find?
                  (fun x => decide (|simCe x - t| ≤ |simCe (runMin simCe t br rest) - t|))
                  (br :: r :: rest) = some br :=
            List.find?_cons_of_pos _ (decide_eq_true hbr)
          exact h4.trans (congrArg some heq)
        · have hm2 : |simCe (runMin simCe t br rest) - t| < |simCe br - t| := by
            push_neg at hbr; exact hbr
          have hr : ¬ (|simCe r - t| ≤ |simCe (runMin simCe t br rest) - t|) := by
            push_neg
            exact lt_of_lt_of_le hm2 h
          have h3 :
              List.find?
                  (fun x => decide (|simCe x - t| ≤ |simCe (runMin simCe t br rest) - t|))
                  (br :: r :: rest) =
                List.find?
                  (fun x => decide (|simCe x - t| ≤ |simCe (runMin simCe t br rest) - t|))
                  (r :: rest) :=
            List.find?_cons_of_neg _ (by simpa using hbr)
          have h4 :
              List.find?
                  (fun x => decide (|simCe x - t| ≤ |simCe (runMin simCe t br rest) - t|))
                  (r :: rest) =
                List.find?
                  (fun x => decide (|simCe x - t| ≤ |simCe (runMin simCe t br rest) - t|))
                  rest :=
            List.find?_cons_of_neg _ (by simpa using hr)
          have h5 :
              List.find?
                  (fun x => decide (|simCe x - t| ≤ |simCe (runMin simCe t br rest) - t|))
                  (br :: rest) =
                List.find?
                  (fun x => decide (|simCe x - t| ≤ |simCe (runMin simCe t br rest) - t|))
                  rest :=
            List.find?_cons_of_neg _ (by simpa using hbr)
          exact h3.trans (h4.trans (h5.symm.trans (ih br)))

theorem optimize_eq (pk : PKParameters) (w b t tr : ℚ) :
    optimizeContinuousRate pk w b t tr =
      { optimalRate :=
          runMin (fun r => simulateBolusAndContinuous pk w b r tr) t (3/10) testRatesTail
        predictedCe :=
          simulateBolusAndContinuous pk w b
            (runMin (fun r => simulateBolusAndContinuous pk w b r tr) t (3/10) testRatesTail) tr
        error :=
          some |simulateBolusAndContinuous pk w b
            (runMin (fun r => simulateBolusAndContinuous pk w b r tr) t (3/10) testRatesTail) tr - t|
        relativeError :=
          some (|simulateBolusAndContinuous pk w b
            (runMin (fun r => simulateBolusAndContinuous pk w b r tr) t (3/10) testRatesTail) tr - t|
            / t * 100)
        allResults :=
          testRates.map (candOf (fun r => simulateBolusAndContinuous pk w b r tr) t) } := by
  unfold optimizeContinuousRate
  dsimp only
  rw [testRates_eq, optScan_start]
  rfl

/- `optimize_eq` fully characterises `optimizeContinuousRate`; keeping the
definition irreducible afterwards prevents runaway unfolding of the scan during
elaboration. -/
attribute [irreducible] optimizeContinuousRate

theorem optErrf_def (pk : PKParameters) (w b t tr r : ℚ) :
    optErrf pk w b t tr r = |simulateBolusAndContinuous pk w b r tr - t| := rfl

/-- C1: `optimizeContinuousRate` returns the first-scanned global optimum of
its finite grid search: the returned `optimalRate` is a member of the scanned
candidate grid, the returned `error` is exactly
`|Ce(targetReachTime) − targetCe|` for that rate and is ≤ the error of every
other scanned candidate (a global optimum over the grid), and the chosen rate
is the first grid point attaining the minimal error — strict `<` replaces the
incumbent, so ties resolve to the lowest-rate candidate scanned. -/
theorem claim_C1_grid_search_first_argmin (pk : PKParameters)
    (weight bolusDoseMg targetCe targetReachTime : ℚ) :
    (optimizeContinuousRate pk weight bolusDoseMg targetCe targetReachTime).optimalRate
        ∈ testRates ∧
    (optimizeContinuousRate pk weight bolusDoseMg targetCe targetReachTime).error =
      some (optErrf pk weight bolusDoseMg targetCe targetReachTime
        (optimizeContinuousRate pk weight bolusDoseMg targetCe targetReachTime).optimalRate) ∧
    (optimizeContinuousRate pk weight bolusDoseMg targetCe
        targetReachTime).allResults.map OptCandidate.rate = testRates ∧
    ListAll
      (fun c =>
        optErrf pk weight bolusDoseMg targetCe targetReachTime
            (optimizeContinuousRate pk weight bolusDoseMg targetCe
              targetReachTime).optimalRate ≤
          c.error)
      (optimizeContinuousRate pk weight bolusDoseMg targetCe targetReachTime).allResults ∧
    testRates.find?
        (fun r =>
          decide (optErrf pk weight bolusDoseMg targetCe targetReachTime r ≤
            optErrf pk weight bolusDoseMg targetCe targetReachTime
              (optimizeContinuousRate pk weight bolusDoseMg targetCe
                targetReachTime).optimalRate)) =
      some (optimizeContinuousRate pk weight bolusDoseMg targetCe
        targetReachTime).optimalRate := by
  have h := optimize_eq pk weight bolusDoseMg targetCe targetReachTime
  have h1 := congrArg OptimizationResult.optimalRate h
  have h2 := congrArg OptimizationResult.error h
  have h3 := congrArg OptimizationResult.allResults h
  dsimp only at h1 h2 h3
  refine ⟨?_, ?_, ?_, ?_, ?_⟩
  · rw [h1, testRates_eq]
    exact runMin_mem
      (fun rate => simulateBolusAndContinuous pk weight bolusDoseMg rate targetReachTime)
      targetCe testRatesTail (3/10)
  · rw [h2, h1, optErrf_def]
  · rw [h3]
    simp [List.map_map, Function.comp_def, candOf_rate]
  · rw [h3, h1, listAll_iff]
    intro c hc
    obtain ⟨r, hr, rfl⟩ := List.mem_map.mp hc
    rw [candOf_error, optErrf_def]
    rw [testRates_eq] at hr
    exact runMin_le
      (fun rate => simulateBolusAndContinuous pk weight bolusDoseMg rate targetReachTime)
      targetCe testRatesTail (3/10) r hr
  · simp only [h1, optErrf_def]
    rw [testRates_eq]
    exact runMin_find
      (fun rate => simulateBolusAndContinuous pk weight bolusDoseMg rate targetReachTime)
      targetCe testRatesTail (3/10)

/- ------------------------------------------------------------------
   Protocol-loop base lemmas.
   ------------------------------------------------------------------ -/

theorem protoRun_zero (pk : PKParameters) (w : ℚ) (tp : ThresholdParams)
    (b r0 : ℚ) (N : ℕ) : protoRun pk w tp b r0 N 0 = protoInit pk b r0 := rfl

theorem protoRun_succ (pk : PKParameters) (w : ℚ) (tp : ThresholdParams)
    (b r0 : ℚ) (N n : ℕ) :
    protoRun pk w tp b r0 N (n + 1) =
      protocolStep pk w tp N (protoRun pk w tp b r0 N n) n := by
  unfold protoRun
  rw [List.range_succ, List.foldl_append, List.foldl_cons, List.foldl_nil]

theorem protocolStep_pos (pk : PKParameters) (w : ℚ) (tp : ThresholdParams)
    (N : ℕ) (st : ProtocolLoopState) (i : ℕ) (hc : adjustTriggered pk tp st i) :
    protocolStep pk w tp N st i =
      { state := stepState pk w N st i
        currentCe := stepCe pk st i
        currentRate := (stepEvent pk tp st i).newRate
        lastAdjustmentTime := stepTime i
        adjustmentCount := st.adjustmentCount + 1
        timeSeriesData := st.timeSeriesData ++
          [stepSample pk tp st i (stepEvent pk tp st i).newRate (st.adjustmentCount + 1)
            (stepTime i)]
        dosageAdjustments := st.dosageAdjustments ++ [stepEvent pk tp st i] } := by
  rw [protocolStep, if_pos hc]

theorem protocolStep_neg (pk : PKParameters) (w : ℚ) (tp : ThresholdParams)
    (N : ℕ) (st : ProtocolLoopState) (i : ℕ) (hc : ¬ adjustTriggered pk tp st i) :
    protocolStep pk w tp N st i =
      { state := stepState pk w N st i
        currentCe := stepCe pk st i
        currentRate := st.currentRate
        lastAdjustmentTime := st.lastAdjustmentTime
        adjustmentCount := st.adjustmentCount
        timeSeriesData := st.timeSeriesData ++
          [stepSample pk tp st i st.currentRate st.adjustmentCount st.lastAdjustmentTime]
        dosageAdjustments := st.dosageAdjustments } := by
  rw [protocolStep, if_neg hc]

theorem protoNumSteps_eq : protoNumSteps = 1801 := by
  norm_num [protoNumSteps, SIMULATION_DURATION, TIME_STEP]
  decide

theorem mkSimulationOutput_timeSeriesData (final : ProtocolLoopState)
    (b r0 : ℚ) (tp : ThresholdParams) :
    (mkSimulationOutput final b r0 tp).timeSeriesData = final.timeSeriesData := rfl

theorem mkSimulationOutput_dosageAdjustments (final : ProtocolLoopState)
    (b r0 : ℚ) (tp : ThresholdParams) :
    (mkSimulationOutput final b r0 tp).dosageAdjustments = final.dosageAdjustments := rfl

theorem simulateCompleteProtocol_timeSeriesData (pk : PKParameters)
    (w b r0 : ℚ) (tp : ThresholdParams) :
    (simulateCompleteProtocol pk w b r0 tp).timeSeriesData =
      (protoRun pk w tp b r0 protoNumSteps protoNumSteps).timeSeriesData := by
  unfold simulateCompleteProtocol
  exact mkSimulationOutput_timeSeriesData _ _ _ _

theorem simulateCompleteProtocol_dosageAdjustments (pk : PKParameters)
    (w b r0 : ℚ) (tp : ThresholdParams) :
    (simulateCompleteProtocol pk w b r0 tp).dosageAdjustments =
      (protoRun pk w tp b r0 protoNumSteps protoNumSteps).dosageAdjustments := by
  unfold simulateCompleteProtocol
  exact mkSimulationOutput_dosageAdjustments _ _ _ _

/- The loop is only accessed through the equations above from here on; making
it irreducible keeps elaboration from trying to evaluate the 1801 iterations
symbolically. -/
attribute [irreducible] protocolStep protoRun simulateCompleteProtocol

theorem stepTime_succ (n : ℕ) : stepTime (n + 1) = stepTime n + TIME_STEP := by
  unfold stepTime
  push_cast
  ring

theorem timeStep_pos : (0 : ℚ) < TIME_STEP := by norm_num [TIME_STEP]

theorem minimumInterval_pos : (0 : ℚ) < minimumInterval := by norm_num [minimumInterval]

/-- Loop invariant for the adjustment log: the event counter tracks the log
length, the refractory timer lags the clock by at least one step, events are
pairwise separated by ≥ `minimumInterval` with strictly increasing sequence
numbers, and every logged event is no later than the refractory timer with a
number no larger than the counter. -/
theorem protoRun_events_inv (pk : PKParameters) (w : ℚ) (tp : ThresholdParams)
    (b r0 : ℚ) (N : ℕ) :
    ∀ n : ℕ,
      (protoRun pk w tp b r0 N n).adjustmentCount =
          (protoRun pk w tp b r0 N n).dosageAdjustments.length ∧
      (protoRun pk w tp b r0 N n).lastAdjustmentTime + TIME_STEP ≤ stepTime n ∧
      List.Pairwise
        (fun a e => a.time + minimumInterval ≤ e.time ∧
          a.adjustmentNumber < e.adjustmentNumber)
        (protoRun pk w tp b r0 N n).dosageAdjustments ∧
      ListAll
        (fun e => e.time ≤ (protoRun pk w tp b r0 N n).lastAdjustmentTime ∧
          e.adjustmentNumber ≤ (protoRun pk w tp b r0 N n).adjustmentCount)
        (protoRun pk w tp b r0 N n).dosageAdjustments := by
  intro n
  induction n with
  | zero =>
      rw [protoRun_zero]
      refine ⟨rfl, ?_, List.Pairwise.nil, trivial⟩
      norm_num [protoInit, initialLastAdjustmentTime, minimumInterval, stepTime, TIME_STEP]
  | succ n ih =>
      obtain ⟨ih1, ih2, ih3, ih4⟩ := ih
      rw [protoRun_succ]
      by_cases hc : adjustTriggered pk tp (protoRun pk w tp b r0 N n) n
      · have hgap : minimumInterval ≤
            stepTime n - (protoRun pk w tp b r0 N n).lastAdjustmentTime := by
          rw [adjustTriggered] at hc
          exact hc.2.1
        rw [protocolStep_pos pk w tp N _ n hc]
        dsimp only [stepEvent]
        refine ⟨?_, ?_, ?_, ?_⟩
        · rw [ih1, List.length_append]
          rfl
        · rw [stepTime_succ]
        · rw [List.pairwise_append]
          refine ⟨ih3, List.pairwise_singleton _ _, ?_⟩
          intro a ha e he
          simp only [List.mem_singleton] at he
          subst he
          have h4 := (listAll_iff _ _).mp ih4 a ha
          refine ⟨?_, ?_⟩
          · dsimp only
            linarith [h4.1, hgap]
          · dsimp only
            exact Nat.lt_succ_of_le h4.2
        · rw [listAll_append]
          constructor
          · refine listAll_imp ?_ ih4
            intro e he
            refine ⟨?_, Nat.le_succ_of_le he.2⟩
            have := minimumInterval_pos
            linarith [he.1, hgap]
          · exact ⟨⟨le_refl _, le_refl _⟩, trivial⟩
      · rw [protocolStep_neg pk w tp N _ n hc]
        dsimp only
        refine ⟨ih1, ?_, ih3, ih4⟩
        rw [stepTime_succ]
        linarith [ih2, timeStep_pos]

/-- Each iteration pushes exactly one sample, whose stored time is
`i * TIME_STEP`. -/
theorem protoRun_times (pk : PKParameters) (w : ℚ) (tp : ThresholdParams)
    (b r0 : ℚ) (N : ℕ) :
    ∀ n : ℕ, (protoRun pk w tp b r0 N n).timeSeriesData.map TimePoint.time =
      (List.range n).map stepTime := by
  intro n
  induction n with
  | zero => rw [protoRun_zero]; rfl
  | succ n ih =>
      rw [protoRun_succ]
      by_cases hc : adjustTriggered pk tp (protoRun pk w tp b r0 N n) n
      · rw [protocolStep_pos pk w tp N _ n hc]
        dsimp only
        rw [List.map_append, ih, List.range_succ, List.map_append]
        rfl
      · rw [protocolStep_neg pk w tp N _ n hc]
        dsimp only
        rw [List.map_append, ih, List.range_succ, List.map_append]
        rfl

theorem protoRun_length (pk : PKParameters) (w : ℚ) (tp : ThresholdParams)
    (b r0 : ℚ) (N : ℕ) :
    ∀ n : ℕ, (protoRun pk w tp b r0 N n).timeSeriesData.length = n := by
  intro n
  have h := congrArg List.length (protoRun_times pk w tp b r0 N n)
  simpa using h

/-- C2: in every trajectory produced by `simulateCompleteProtocol` the
adjustment log is strictly increasing in time and in sequence number, no two
events (consecutive or not) are separated by less than the 5-minute minimum
interval, and `lastAdjustmentTime` is initialized to `-minimumInterval`, which
makes the refractory gate already open at the very first step (time 0). -/
theorem claim_C2_debounce_and_monotone_log (pk : PKParameters)
    (weight bolusDoseMg initialContinuousRate : ℚ) (tp : ThresholdParams) :
    List.Pairwise
      (fun a e : DosageAdjustment =>
        a.time < e.time ∧ a.adjustmentNumber < e.adjustmentNumber ∧
          a.time + minimumInterval ≤ e.time)
      (simulateCompleteProtocol pk weight bolusDoseMg initialContinuousRate
        tp).dosageAdjustments ∧
    initialLastAdjustmentTime = -minimumInterval ∧
    minimumInterval ≤ stepTime 0 - initialLastAdjustmentTime := by
  refine ⟨?_, rfl, by norm_num [stepTime, initialLastAdjustmentTime, minimumInterval]⟩
  have h := (protoRun_events_inv pk weight tp bolusDoseMg initialContinuousRate
    protoNumSteps protoNumSteps).2.2.1
  rw [simulateCompleteProtocol_dosageAdjustments]
  exact h.imp fun hab => ⟨by linarith [hab.1, minimumInterval_pos], hab.2, hab.1⟩

/-- C5: every call of `simulateCompleteProtocol` terminates at the fixed
180-minute horizon with exactly `floor(180/0.1) + 1 = 1801` samples, one per
0.1-minute step (the n-th sample is stamped `n * TIME_STEP`).  Totality is
inherent: the embedded loop is a structurally terminating fold. -/
theorem claim_C5_fixed_horizon_1801_samples (pk : PKParameters)
    (weight bolusDoseMg initialContinuousRate : ℚ) (tp : ThresholdParams) :
    protoNumSteps = 1801 ∧
    (simulateCompleteProtocol pk weight bolusDoseMg initialContinuousRate
        tp).timeSeriesData.length = 1801 ∧
    (simulateCompleteProtocol pk weight bolusDoseMg initialContinuousRate
        tp).timeSeriesData.map TimePoint.time =
      (List.range 1801).map stepTime := by
  refine ⟨protoNumSteps_eq, ?_, ?_⟩
  · rw [simulateCompleteProtocol_timeSeriesData]
    rw [protoRun_length pk weight tp bolusDoseMg initialContinuousRate protoNumSteps
      protoNumSteps, protoNumSteps_eq]
  · rw [simulateCompleteProtocol_timeSeriesData]
    rw [protoRun_times pk weight tp bolusDoseMg initialContinuousRate protoNumSteps
      protoNumSteps, protoNumSteps_eq]

theorem minInfusion_pos : (0 : ℚ) < MIN_INFUSION_RATE := by
  norm_num [MIN_INFUSION_RATE]

/-- Events are only appended when the debounced threshold guard held: the
logged concentration is at or above the upper threshold and the pre-reduction
rate is strictly above the floor. -/
theorem protoRun_event_guard (pk : PKParameters) (w : ℚ) (tp : ThresholdParams)
    (b r0 : ℚ) (N : ℕ) :
    ∀ n : ℕ,
      ListAll
        (fun e => tp.targetCe * tp.upperThresholdFactor ≤ e.ceAtEvent ∧
          MIN_INFUSION_RATE < e.oldRate)
        (protoRun pk w tp b r0 N n).dosageAdjustments := by
  intro n
  induction n with
  | zero => rw [protoRun_zero]; trivial
  | succ n ih =>
      rw [protoRun_succ]
      by_cases hc : adjustTriggered pk tp (protoRun pk w tp b r0 N n) n
      · have hc' := hc
        rw [adjustTriggered] at hc'
        rw [protocolStep_pos pk w tp N _ n hc]
        dsimp only
        rw [listAll_append]
        exact ⟨ih, ⟨hc'.1, hc'.2.2⟩, trivial⟩
      · rw [protocolStep_neg pk w tp N _ n hc]
        dsimp only
        exact ih

/-- Rate-chaining invariant: every event's `newRate` is
`max(MIN_INFUSION_RATE, oldRate * reductionFactor)`, consecutive events chain
(`oldRate` of the next equals `newRate` of the previous), and the running
`currentRate` equals the last event's `newRate` (or the initial rate if no
event fired yet). -/
theorem protoRun_rates_inv (pk : PKParameters) (w : ℚ) (tp : ThresholdParams)
    (b r0 : ℚ) (N : ℕ) :
    ∀ n : ℕ,
      ListAll
        (fun e => e.newRate = max MIN_INFUSION_RATE (e.oldRate * tp.reductionFactor))
        (protoRun pk w tp b r0 N n).dosageAdjustments ∧
      List.Chain' (fun a e => e.oldRate = a.newRate)
        (protoRun pk w tp b r0 N n).dosageAdjustments ∧
      Option.elim (protoRun pk w tp b r0 N n).dosageAdjustments.getLast?
        ((protoRun pk w tp b r0 N n).currentRate = r0)
        (fun e => (protoRun pk w tp b r0 N n).currentRate = e.newRate) := by
  intro n
  induction n with
  | zero =>
      rw [protoRun_zero]
      exact ⟨trivial, List.chain'_nil, rfl⟩
  | succ n ih =>
      obtain ⟨ih1, ih2, ih3⟩ := ih
      rw [protoRun_succ]
      by_cases hc : adjustTriggered pk tp (protoRun pk w tp b r0 N n) n
      · rw [protocolStep_pos pk w tp N _ n hc]
        dsimp only
        refine ⟨?_, ?_, ?_⟩
        · rw [listAll_append]
          exact ⟨ih1, rfl, trivial⟩
        · rw [List.chain'_append]
          refine ⟨ih2, List.chain'_singleton _, ?_⟩
          intro x hx e he
          simp only [List.head?_cons, Option.mem_def, Option.some.injEq] at he
          subst he
          rcases hlast : (protoRun pk w tp b r0 N n).dosageAdjustments.getLast? with _ | a
          · rw [hlast] at hx
            simp at hx
          · rw [hlast] at hx ih3
            simp only [Option.mem_def, Option.some.injEq] at hx
            subst hx
            exact ih3
        · rw [List.getLast?_concat]
          rfl
      · rw [protocolStep_neg pk w tp N _ n hc]
        dsimp only
        exact ⟨ih1, ih2, ih3⟩

/-- C9: every `DosageAdjustment` recorded by `simulateCompleteProtocol` has
`ceAtEvent ≥ targetCe * upperThresholdRatio` and `oldRate > MIN_INFUSION_RATE`:
an event is emitted only when the threshold-trigger condition held at that
step. -/
theorem claim_C9_event_emission_guard (pk : PKParameters)
    (weight bolusDoseMg initialContinuousRate : ℚ) (tp : ThresholdParams) :
    ListAll
      (fun e => tp.targetCe * tp.upperThresholdFactor ≤ e.ceAtEvent ∧
        MIN_INFUSION_RATE < e.oldRate)
      (simulateCompleteProtocol pk weight bolusDoseMg initialContinuousRate
        tp).dosageAdjustments := by
  rw [simulateCompleteProtocol_dosageAdjustments]
  exact protoRun_event_guard pk weight tp bolusDoseMg initialContinuousRate
    protoNumSteps protoNumSteps

/-- C3: for every adjustment event,
`newRate = max(MIN_INFUSION_RATE, oldRate * reductionFactor)`; consecutive
events chain (each event's `oldRate` is the previous event's `newRate`, since
the rate only changes at adjustments); and — for a reduction factor ≤ 1, which
includes the source's 0.70 default — `newRate ≤ oldRate`, so the rate sequence
across all adjustments of one run is non-increasing. -/
theorem claim_C3_monotonic_reduction (pk : PKParameters)
    (weight bolusDoseMg initialContinuousRate : ℚ) (tp : ThresholdParams)
    (hrf : tp.reductionFactor ≤ 1) :
    ListAll
      (fun e => e.newRate = max MIN_INFUSION_RATE (e.oldRate * tp.reductionFactor))
      (simulateCompleteProtocol pk weight bolusDoseMg initialContinuousRate
        tp).dosageAdjustments ∧
    List.Chain' (fun a e => e.oldRate = a.newRate)
      (simulateCompleteProtocol pk weight bolusDoseMg initialContinuousRate
        tp).dosageAdjustments ∧
    ListAll (fun e => e.newRate ≤ e.oldRate)
      (simulateCompleteProtocol pk weight bolusDoseMg initialContinuousRate
        tp).dosageAdjustments := by
  rw [simulateCompleteProtocol_dosageAdjustments]
  have h := protoRun_rates_inv pk weight tp bolusDoseMg initialContinuousRate
    protoNumSteps protoNumSteps
  have hg := protoRun_event_guard pk weight tp bolusDoseMg initialContinuousRate
    protoNumSteps protoNumSteps
  refine ⟨h.1, h.2.1, ?_⟩
  rw [listAll_iff]
  intro e he
  have h1 := (listAll_iff _ _).mp h.1 e he
  have h2 := (listAll_iff _ _).mp hg e he
  rw [h1]
  have hold : (0 : ℚ) < e.oldRate := lt_trans minInfusion_pos h2.2
  exact max_le (le_of_lt h2.2) (mul_le_of_le_one_right (le_of_lt hold) hrf)

/-- Witness for C3 at a concrete input (reduction factor 0 ≤ 1). -/
theorem claim_C3_monotonic_reduction_witness :
    ((ThresholdParams.mk 1 1 0).reductionFactor ≤ 1) ∧
    (ListAll
      (fun e => e.newRate =
        max MIN_INFUSION_RATE (e.oldRate * (ThresholdParams.mk 1 1 0).reductionFactor))
      (simulateCompleteProtocol (PKParameters.mk 1 1 1 1 1 1 1) 1 1 1
        (ThresholdParams.mk 1 1 0)).dosageAdjustments ∧
    List.Chain' (fun a e => e.oldRate = a.newRate)
      (simulateCompleteProtocol (PKParameters.mk 1 1 1 1 1 1 1) 1 1 1
        (ThresholdParams.mk 1 1 0)).dosageAdjustments ∧
    ListAll (fun e => e.newRate ≤ e.oldRate)
      (simulateCompleteProtocol (PKParameters.mk 1 1 1 1 1 1 1) 1 1 1
        (ThresholdParams.mk 1 1 0)).dosageAdjustments) :=
  ⟨by decide, claim_C3_monotonic_reduction (PKParameters.mk 1 1 1 1 1 1 1) 1 1 1
    (ThresholdParams.mk 1 1 0) (by decide)⟩

theorem minInfusion_le_max : MIN_INFUSION_RATE ≤ MAX_INFUSION_RATE := by
  norm_num [MIN_INFUSION_RATE, MAX_INFUSION_RATE]

/-- Rate-bounds invariant: for an in-range initial rate and a reduction factor
≤ 1, the running rate, every sample's rate and every event's rates stay within
`[MIN_INFUSION_RATE, MAX_INFUSION_RATE]`. -/
theorem protoRun_bounds_inv (pk : PKParameters) (w : ℚ) (tp : ThresholdParams)
    (b r0 : ℚ) (N : ℕ) (hrf : tp.reductionFactor ≤ 1)
    (hr1 : MIN_INFUSION_RATE ≤ r0) (hr2 : r0 ≤ MAX_INFUSION_RATE) :
    ∀ n : ℕ,
      MIN_INFUSION_RATE ≤ (protoRun pk w tp b r0 N n).currentRate ∧
      (protoRun pk w tp b r0 N n).currentRate ≤ MAX_INFUSION_RATE ∧
      ListAll
        (fun s => MIN_INFUSION_RATE ≤ s.infusionRate ∧
          s.infusionRate ≤ MAX_INFUSION_RATE)
        (protoRun pk w tp b r0 N n).timeSeriesData ∧
      ListAll
        (fun e => MIN_INFUSION_RATE ≤ e.oldRate ∧ e.oldRate ≤ MAX_INFUSION_RATE ∧
          MIN_INFUSION_RATE ≤ e.newRate ∧ e.newRate ≤ MAX_INFUSION_RATE)
        (protoRun pk w tp b r0 N n).dosageAdjustments := by
  intro n
  induction n with
  | zero =>
      rw [protoRun_zero]
      exact ⟨hr1, hr2, trivial, trivial⟩
  | succ n ih =>
      obtain ⟨ih1, ih2, ih3, ih4⟩ := ih
      rw [protoRun_succ]
      by_cases hc : adjustTriggered pk tp (protoRun pk w tp b r0 N n) n
      · have hcur0 : (0 : ℚ) ≤ (protoRun pk w tp b r0 N n).currentRate :=
          le_trans (le_of_lt minInfusion_pos) ih1
        have hnew1 : MIN_INFUSION_RATE ≤
            max MIN_INFUSION_RATE
              ((protoRun pk w tp b r0 N n).currentRate * tp.reductionFactor) :=
          le_max_left _ _
        have hnew2 :
            max MIN_INFUSION_RATE
              ((protoRun pk w tp b r0 N n).currentRate * tp.reductionFactor) ≤
              MAX_INFUSION_RATE :=
          max_le minInfusion_le_max
            (le_trans (mul_le_of_le_one_right hcur0 hrf) ih2)
        rw [protocolStep_pos pk w tp N _ n hc]
        dsimp only
        refine ⟨hnew1, hnew2, ?_, ?_⟩
        · rw [listAll_append]
          exact ⟨ih3, ⟨hnew1, hnew2⟩, trivial⟩
        · rw [listAll_append]
          exact ⟨ih4, ⟨ih1, ih2, hnew1, hnew2⟩, trivial⟩
      · rw [protocolStep_neg pk w tp N _ n hc]
        dsimp only
        refine ⟨ih1, ih2, ?_, ih4⟩
        rw [listAll_append]
        exact ⟨ih3, ⟨ih1, ih2⟩, trivial⟩

/-- C6: whenever `simulateCompleteProtocol` is started from an initial rate
within `[MIN_INFUSION_RATE, MAX_INFUSION_RATE]` (as the pipeline does — the
optimizer's grid lies in [0.3, 4.0]) with a reduction factor ≤ 1, the infusion
rate stays within those bounds at every step: every trajectory sample's
`infusionRate` and every adjustment event's `oldRate` and `newRate` lie in
`[0.1, 6.0]` mg/kg/hr. -/
theorem claim_C6_rate_bounds (pk : PKParameters)
    (weight bolusDoseMg initialContinuousRate : ℚ) (tp : ThresholdParams)
    (hrf : tp.reductionFactor ≤ 1)
    (hr1 : MIN_INFUSION_RATE ≤ initialContinuousRate)
    (hr2 : initialContinuousRate ≤ MAX_INFUSION_RATE) :
    ListAll
      (fun s => MIN_INFUSION_RATE ≤ s.infusionRate ∧
        s.infusionRate ≤ MAX_INFUSION_RATE)
      (simulateCompleteProtocol pk weight bolusDoseMg initialContinuousRate
        tp).timeSeriesData ∧
    ListAll
      (fun e => MIN_INFUSION_RATE ≤ e.oldRate ∧ e.oldRate ≤ MAX_INFUSION_RATE ∧
        MIN_INFUSION_RATE ≤ e.newRate ∧ e.newRate ≤ MAX_INFUSION_RATE)
      (simulateCompleteProtocol pk weight bolusDoseMg initialContinuousRate
        tp).dosageAdjustments := by
  rw [simulateCompleteProtocol_timeSeriesData, simulateCompleteProtocol_dosageAdjustments]
  have h := protoRun_bounds_inv pk weight tp bolusDoseMg initialContinuousRate
    protoNumSteps hrf hr1 hr2 protoNumSteps
  exact ⟨h.2.2.1, h.2.2.2⟩

/-- Witness for C6 at a concrete input (initial rate 1, reduction factor 0). -/
theorem claim_C6_rate_bounds_witness :
    ((ThresholdParams.mk 1 1 0).reductionFactor ≤ 1) ∧
    (MIN_INFUSION_RATE ≤ (1 : ℚ)) ∧
    ((1 : ℚ) ≤ MAX_INFUSION_RATE) ∧
    (ListAll
      (fun s => MIN_INFUSION_RATE ≤ s.infusionRate ∧
        s.infusionRate ≤ MAX_INFUSION_RATE)
      (simulateCompleteProtocol (PKParameters.mk 1 1 1 1 1 1 1) 1 1 1
        (ThresholdParams.mk 1 1 0)).timeSeriesData ∧
    ListAll
      (fun e => MIN_INFUSION_RATE ≤ e.oldRate ∧ e.oldRate ≤ MAX_INFUSION_RATE ∧
        MIN_INFUSION_RATE ≤ e.newRate ∧ e.newRate ≤ MAX_INFUSION_RATE)
      (simulateCompleteProtocol (PKParameters.mk 1 1 1 1 1 1 1) 1 1 1
        (ThresholdParams.mk 1 1 0)).dosageAdjustments) :=
  ⟨by decide,
   by norm_num [MasuiModelConstants.MIN_INFUSION_RATE],
   by norm_num [MasuiModelConstants.MAX_INFUSION_RATE],
   claim_C6_rate_bounds (PKParameters.mk 1 1 1 1 1 1 1) 1 1 1
     (ThresholdParams.mk 1 1 0) (by decide)
     (by norm_num [MasuiModelConstants.MIN_INFUSION_RATE])
     (by norm_num [MasuiModelConstants.MAX_INFUSION_RATE])⟩

theorem stepEvent_time (pk : PKParameters) (tp : ThresholdParams)
    (st : ProtocolLoopState) (i : ℕ) : (stepEvent pk tp st i).time = stepTime i := rfl

theorem stepEvent_oldRate (pk : PKParameters) (tp : ThresholdParams)
    (st : ProtocolLoopState) (i : ℕ) :
    (stepEvent pk tp st i).oldRate = st.currentRate := rfl

theorem stepEvent_newRate (pk : PKParameters) (tp : ThresholdParams)
    (st : ProtocolLoopState) (i : ℕ) :
    (stepEvent pk tp st i).newRate =
      max MIN_INFUSION_RATE (st.currentRate * tp.reductionFactor) := rfl

theorem stepSample_time (pk : PKParameters) (tp : ThresholdParams)
    (st : ProtocolLoopState) (i : ℕ) (rate : ℚ) (count : ℕ) (lastAdj : ℚ) :
    (stepSample pk tp st i rate count lastAdj).time = stepTime i := rfl

theorem stepSample_infusionRate (pk : PKParameters) (tp : ThresholdParams)
    (st : ProtocolLoopState) (i : ℕ) (rate : ℚ) (count : ℕ) (lastAdj : ℚ) :
    (stepSample pk tp st i rate count lastAdj).infusionRate = rate := rfl

/-- Sample/event consistency invariant (for a strictly reducing factor): the
running rate never exceeds any logged event's `newRate`, every event strictly
reduced its rate, event and sample stamps lag the clock, and for every logged
event every sample at or after the event's time carries a rate strictly below
the event's pre-reduction `oldRate`, while the sample at exactly the event's
time carries exactly the event's `newRate`. -/
theorem protoRun_sample_event_inv (pk : PKParameters) (w : ℚ) (tp : ThresholdParams)
    (b r0 : ℚ) (N : ℕ) (hrf : tp.reductionFactor < 1) :
    ∀ n : ℕ,
      ListAll
        (fun e => (protoRun pk w tp b r0 N n).currentRate ≤ e.newRate ∧
          e.newRate < e.oldRate ∧ e.time + TIME_STEP ≤ stepTime n)
        (protoRun pk w tp b r0 N n).dosageAdjustments ∧
      ListAll (fun s => s.time + TIME_STEP ≤ stepTime n)
        (protoRun pk w tp b r0 N n).timeSeriesData ∧
      ListAll
        (fun e =>
          ListAll
            (fun s => (e.time ≤ s.time → s.infusionRate < e.oldRate) ∧
              (s.time = e.time → s.infusionRate = e.newRate))
            (protoRun pk w tp b r0 N n).timeSeriesData)
        (protoRun pk w tp b r0 N n).dosageAdjustments := by
  intro n
  induction n with
  | zero =>
      rw [protoRun_zero]
      exact ⟨trivial, trivial, trivial⟩
  | succ n ih =>
      obtain ⟨ih1, ih2, ih3⟩ := ih
      have ih1' := (listAll_iff _ _).mp ih1
      have ih2' := (listAll_iff _ _).mp ih2
      have ih3' := (listAll_iff _ _).mp ih3
      rw [protoRun_succ]
      by_cases hc : adjustTriggered pk tp (protoRun pk w tp b r0 N n) n
      · have hc' := hc
        rw [adjustTriggered] at hc'
        have hcur0 : (0 : ℚ) < (protoRun pk w tp b r0 N n).currentRate :=
          lt_trans minInfusion_pos hc'.2.2
        have hstrict :
            max MIN_INFUSION_RATE
              ((protoRun pk w tp b r0 N n).currentRate * tp.reductionFactor) <
              (protoRun pk w tp b r0 N n).currentRate :=
          max_lt hc'.2.2 (mul_lt_of_lt_one_right hcur0 hrf)
        rw [protocolStep_pos pk w tp N _ n hc]
        dsimp only
        refine ⟨?_, ?_, ?_⟩
        · rw [listAll_append]
          constructor
          · refine listAll_imp ?_ ih1
            intro e he
            refine ⟨?_, he.2.1, ?_⟩
            · rw [stepEvent_newRate]
              exact le_trans (le_of_lt hstrict) he.1
            · rw [stepTime_succ]
              linarith [he.2.2, timeStep_pos]
          · refine ⟨⟨?_, ?_, ?_⟩, trivial⟩
            · rw [stepEvent_newRate]
            · rw [stepEvent_newRate, stepEvent_oldRate]
              exact hstrict
            · rw [stepEvent_time, stepTime_succ]
        · rw [listAll_append]
          constructor
          · refine listAll_imp ?_ ih2
            intro s hs
            rw [stepTime_succ]
            linarith [hs, timeStep_pos]
          · refine ⟨?_, trivial⟩
            simp only [stepSample_time, stepTime_succ, le_refl]
        · rw [listAll_iff]
          intro e he
          rw [listAll_iff]
          intro s hs
          rw [List.mem_append, List.mem_singleton] at he hs
          rcases he with he | rfl
          · rcases hs with hs | rfl
            · exact (listAll_iff _ _).mp (ih3' e he) s hs
            · have he1 := ih1' e he
              constructor
              · intro _
                rw [stepSample_infusionRate, stepEvent_newRate]
                exact lt_trans (lt_of_lt_of_le hstrict he1.1) he1.2.1
              · intro hteq
                exfalso
                rw [stepSample_time] at hteq
                have := he1.2.2
                rw [← hteq] at this
                linarith [timeStep_pos]
          · rcases hs with hs | rfl
            · have hs2 := ih2' s hs
              constructor
              · intro hle
                exfalso
                rw [stepEvent_time] at hle
                linarith [timeStep_pos]
              · intro hteq
                exfalso
                rw [stepEvent_time] at hteq
                rw [hteq] at hs2
                linarith [timeStep_pos]
            · constructor
              · intro _
                rw [stepSample_infusionRate, stepEvent_newRate, stepEvent_oldRate]
                exact hstrict
              · intro _
                rw [stepSample_infusionRate, stepEvent_newRate]
      · rw [protocolStep_neg pk w tp N _ n hc]
        dsimp only
        refine ⟨?_, ?_, ?_⟩
        · refine listAll_imp ?_ ih1
          intro e he
          refine ⟨he.1, he.2.1, ?_⟩
          rw [stepTime_succ]
          linarith [he.2.2, timeStep_pos]
        · rw [listAll_append]
          constructor
          · refine listAll_imp ?_ ih2
            intro s hs
            rw [stepTime_succ]
            linarith [hs, timeStep_pos]
          · refine ⟨?_, trivial⟩
            simp only [stepSample_time, stepTime_succ, le_refl]
        · rw [listAll_iff]
          intro e he
          rw [listAll_iff]
          intro s hs
          rw [List.mem_append, List.mem_singleton] at hs
          rcases hs with hs | rfl
          · exact (listAll_iff _ _).mp (ih3' e he) s hs
          · have he1 := ih1' e he
            constructor
            · intro _
              rw [stepSample_infusionRate]
              exact lt_of_le_of_lt he1.1 he1.2.1
            · intro hteq
              exfalso
              rw [stepSample_time] at hteq
              have := he1.2.2
              rw [← hteq] at this
              linarith [timeStep_pos]

/-- C10: within one loop iteration the threshold reduction is applied before
the sample is stored, so (for a strictly reducing factor, e.g. the 0.70
default) the trajectory sample recorded at an event's time already reports the
event's `newRate`, and every sample at or after an event's time carries a rate
strictly below the event's pre-reduction `oldRate` — the old rate never
reappears from the event onward. -/
theorem claim_C10_reduction_before_sample (pk : PKParameters)
    (weight bolusDoseMg initialContinuousRate : ℚ) (tp : ThresholdParams)
    (hrf : tp.reductionFactor < 1) :
    ListAll
      (fun e =>
        ListAll
          (fun s => (e.time ≤ s.time → s.infusionRate < e.oldRate) ∧
            (s.time = e.time → s.infusionRate = e.newRate))
          (simulateCompleteProtocol pk weight bolusDoseMg initialContinuousRate
            tp).timeSeriesData)
      (simulateCompleteProtocol pk weight bolusDoseMg initialContinuousRate
        tp).dosageAdjustments := by
  rw [simulateCompleteProtocol_timeSeriesData, simulateCompleteProtocol_dosageAdjustments]
  exact (protoRun_sample_event_inv pk weight tp bolusDoseMg initialContinuousRate
    protoNumSteps hrf protoNumSteps).2.2

/-- Witness for C10 at a concrete input (reduction factor 0 < 1). -/
theorem claim_C10_reduction_before_sample_witness :
    ((ThresholdParams.mk 1 1 0).reductionFactor < 1) ∧
    ListAll
      (fun e =>
        ListAll
          (fun s => (e.time ≤ s.time → s.infusionRate < e.oldRate) ∧
            (s.time = e.time → s.infusionRate = e.newRate))
          (simulateCompleteProtocol (PKParameters.mk 1 1 1 1 1 1 1) 1 1 1
            (ThresholdParams.mk 1 1 0)).timeSeriesData)
      (simulateCompleteProtocol (PKParameters.mk 1 1 1 1 1 1 1) 1 1 1
        (ThresholdParams.mk 1 1 0)).dosageAdjustments :=
  ⟨by decide, claim_C10_reduction_before_sample (PKParameters.mk 1 1 1 1 1 1 1) 1 1 1
    (ThresholdParams.mk 1 1 0) (by decide)⟩

/-- One RK4 step at the all-zero state with zero infusion returns the all-zero
state: all four stage derivatives vanish. -/
theorem updateSystemStateRK4_zero (pk : PKParameters) (dt : ℚ) :
    updateSystemStateRK4 pk (SystemState.mk 0 0 0) 0 dt = SystemState.mk 0 0 0 := by
  unfold updateSystemStateRK4
  dsimp only
  rw [SystemState.mk.injEq]
  refine ⟨?_, ?_, ?_⟩ <;> ring

/-- Zero-input run invariant: with zero bolus and zero initial rate, the
compartment masses, the effect-site concentration and the running rate stay
exactly zero at every step, and every stored sample reports zero `ce` and
zero `plasma`.  (The threshold guard can never fire because the running rate,
0, is not above `MIN_INFUSION_RATE`.) -/
theorem protoRun_zero_input (pk : PKParameters) (w : ℚ) (tp : ThresholdParams)
    (N : ℕ) :
    ∀ n : ℕ,
      (protoRun pk w tp 0 0 N n).state = SystemState.mk 0 0 0 ∧
      (protoRun pk w tp 0 0 N n).currentCe = 0 ∧
      (protoRun pk w tp 0 0 N n).currentRate = 0 ∧
      ListAll (fun s => s.ce = 0 ∧ s.plasma = 0)
        (protoRun pk w tp 0 0 N n).timeSeriesData := by
  intro n
  induction n with
  | zero =>
      rw [protoRun_zero]
      exact ⟨rfl, rfl, rfl, trivial⟩
  | succ n ih =>
      obtain ⟨ih1, ih2, ih3, ih4⟩ := ih
      rw [protoRun_succ]
      have hno : ¬ adjustTriggered pk tp (protoRun pk w tp 0 0 N n) n := by
        rw [adjustTriggered]
        intro h
        have h3 := h.2.2
        rw [ih3] at h3
        exact absurd h3 (by norm_num [MIN_INFUSION_RATE])
      have hpl : stepPlasma pk (protoRun pk w tp 0 0 N n) = 0 := by
        rw [stepPlasma, ih1]
        simp
      have hce : stepCe pk (protoRun pk w tp 0 0 N n) n = 0 := by
        rw [stepCe, hpl, ih2]
        split_ifs <;> ring
      rw [protocolStep_neg pk w tp N _ n hno]
      dsimp only
      refine ⟨?_, hce, ih3, ?_⟩
      · rw [stepState, ih1, ih3]
        have hz : (0 : ℚ) * w / 60 = 0 := by ring
        rw [hz]
        split_ifs with h
        · exact updateSystemStateRK4_zero pk TIME_STEP
        · rfl
      · rw [listAll_append]
        exact ⟨ih4, ⟨hce, hpl⟩, trivial⟩

/-- C8: with a zero bolus dose and a zero infusion rate, the system stays
identically zero: a single RK4 step preserves the all-zero compartment state,
the bolus initializer maps dose 0 to the all-zero state, and along the whole
horizon of `simulateCompleteProtocol` (and after any number `n` of loop
iterations) the masses a1, a2, a3 and the effect-site concentration remain
exactly zero, as do the `ce` and `plasma` values of every stored sample. -/
theorem claim_C8_zero_input_stability (pk : PKParameters) (dt w : ℚ)
    (tp : ThresholdParams) (N n : ℕ) :
    updateSystemStateRK4 pk (SystemState.mk 0 0 0) 0 dt = SystemState.mk 0 0 0 ∧
    calculateBolusInitialState pk 0 = BolusState.mk 0 0 0 0 0 ∧
    (protoRun pk w tp 0 0 N n).state = SystemState.mk 0 0 0 ∧
    (protoRun pk w tp 0 0 N n).currentCe = 0 ∧
    ListAll (fun s => s.ce = 0 ∧ s.plasma = 0)
      (protoRun pk w tp 0 0 N n).timeSeriesData ∧
    ListAll (fun s => s.ce = 0 ∧ s.plasma = 0)
      (simulateCompleteProtocol pk w 0 0 tp).timeSeriesData := by
  have h := protoRun_zero_input pk w tp N n
  have h2 := protoRun_zero_input pk w tp protoNumSteps protoNumSteps
  refine ⟨updateSystemStateRK4_zero pk dt, ?_, h.1, h.2.1, h.2.2.2, ?_⟩
  · rw [calculateBolusInitialState, BolusState.mk.injEq]
    norm_num
  · rw [simulateCompleteProtocol_timeSeriesData]
    exact h2.2.2.2

/-- C7: `calculateBolusProtocol` throws (returns `.error`) before any
simulation runs exactly when the patient fails validation, the bolus dose lies
outside [1, 15] mg, or the target Ce lies outside [0.5, 3.0] µg/mL; for inputs
inside these ranges no validation error is raised (the call returns `.ok`,
which carries the only produced result — the error branches carry none).  The
second conjunct characterises `Patient.validate`: it passes exactly when the
id is non-empty (and not all-whitespace), age ∈ [18, 80], weight ∈ [40, 120]
kg and the derived BMI ∈ [16, 40]. -/
theorem claim_C7_validation_gate (pkOf : Patient → PKParameters) (p : Patient)
    (bolusDoseMg targetCe : ℚ) (pp : ProtocolOverrides) :
    (exceptIsOk (calculateBolusProtocol pkOf p bolusDoseMg targetCe pp) =
      (p.validate.isValid &&
        decide (MIN_BOLUS_DOSE ≤ bolusDoseMg ∧ bolusDoseMg ≤ MAX_BOLUS_DOSE) &&
        decide ((1 : ℚ)/2 ≤ targetCe ∧ targetCe ≤ 3))) ∧
    (p.validate.isValid =
      (decide (¬ (p.patientId = "" ∨ p.patientId.trim.length = 0)) &&
       decide (18 ≤ p.age ∧ p.age ≤ 80) &&
       decide (40 ≤ p.weight ∧ p.weight ≤ 120) &&
       decide (16 ≤ p.getBMI ∧ p.getBMI ≤ 40))) := by
  constructor
  · simp only [calculateBolusProtocol]
    by_cases hv : p.validate.isValid
    · rw [if_neg (by rw [hv]; simp), hv]
      by_cases hb : bolusDoseMg < MIN_BOLUS_DOSE ∨ MAX_BOLUS_DOSE < bolusDoseMg
      · rw [if_pos hb]
        have hnb : ¬ (MIN_BOLUS_DOSE ≤ bolusDoseMg ∧ bolusDoseMg ≤ MAX_BOLUS_DOSE) := by
          rcases hb with h | h
          · exact fun hcon => absurd hcon.1 (not_le.mpr h)
          · exact fun hcon => absurd hcon.2 (not_le.mpr h)
        rw [decide_eq_false hnb]
        simp [exceptIsOk]
      · rw [if_neg hb]
        push_neg at hb
        rw [decide_eq_true hb]
        by_cases hce : targetCe < 1/2 ∨ 3 < targetCe
        · rw [if_pos hce]
          have hnc : ¬ ((1 : ℚ)/2 ≤ targetCe ∧ targetCe ≤ 3) := by
            rcases hce with h | h
            · exact fun hcon => absurd hcon.1 (not_le.mpr h)
            · exact fun hcon => absurd hcon.2 (not_le.mpr h)
          rw [decide_eq_false hnc]
          simp [exceptIsOk]
        · rw [if_neg hce]
          push_neg at hce
          rw [decide_eq_true hce]
          simp [exceptIsOk]
    · have hv' : p.validate.isValid = false := by
        revert hv
        cases p.validate.isValid <;> simp
      rw [if_pos (by rw [hv']; rfl)]
      simp [exceptIsOk, hv']
  · have eAge : decide (18 ≤ p.age ∧ p.age ≤ 80) =
        !decide (p.age < 18 ∨ 80 < p.age) := by
      rw [← decide_not]
      exact decide_eq_decide.mpr (by rw [not_or, not_lt, not_lt])
    have eWeight : decide (40 ≤ p.weight ∧ p.weight ≤ 120) =
        !decide (p.weight < 40 ∨ 120 < p.weight) := by
      rw [← decide_not]
      exact decide_eq_decide.mpr (by rw [not_or, not_lt, not_lt])
    have eBMI : decide (16 ≤ p.getBMI ∧ p.getBMI ≤ 40) =
        !decide (p.getBMI < 16 ∨ 40 < p.getBMI) := by
      rw [← decide_not]
      exact decide_eq_decide.mpr (by rw [not_or, not_lt, not_lt])
    rw [Patient.validate, eAge, eWeight, eBMI, ← decide_not]
    dsimp only
    by_cases h1 : p.patientId = "" ∨ p.patientId.trim.length = 0 <;>
      by_cases h2 : p.age < 18 ∨ 80 < p.age <;>
      by_cases h3 : p.weight < 40 ∨ 120 < p.weight <;>
      by_cases h4 : p.getBMI < 16 ∨ 40 < p.getBMI <;>
      simp [h1, h2, h3, h4]

/-- C4 counterexample: under the binary64 arithmetic that JS actually
executes, the accumulation loop `for (rate = 0.3; rate <= 4.0; rate += 0.1)`
of source lines 149–154 scans only 37 candidates, not 38, and the upper
endpoint 4.0 (scaled: 2^58) is never scanned — the accumulator reaches
≈ 4.000000000000002 > 4.0 and the loop exits — so the claim's grid
`{0.3 + i·0.1 : i = 0..37}` with both endpoints present is false for the
code. -/
theorem claim_C4_counterexample :
    testRatesFPScaled.length ≠ 38 ∧ ((2 : ℤ) ^ 58) ∉ testRatesFPScaled ∧
    (4 : ℚ) ∉ testRatesFP := by
  refine ⟨by decide, by decide, ?_⟩
  intro hmem
  rw [testRatesFP] at hmem
  obtain ⟨z, hz, he⟩ := List.mem_map.mp hmem
  have hz4 : (z : ℚ) = 4 * 2 ^ 56 := by
    field_simp at he
    linarith [he]
  have hz58 : z = 2 ^ 58 := by
    have hcast : (z : ℚ) = ((2 ^ 58 : ℤ) : ℚ) := by
      push_cast
      rw [hz4]
      norm_num
    exact_mod_cast hcast
  rw [hz58] at hz
  exact absurd hz (by decide)

/-- C4 amended: the candidate grid is generated by repeated floating-point
addition (`rate += 0.1`), not by integer step index.  Under binary64
semantics the scan contains exactly 37 candidates: it starts at the double
nearest 0.3 (21617278211378380 · 2^-56), ends at ≈ 3.9000000000000017
(281024616747919104 · 2^-56), and never contains 4.0.  Under exact rational
arithmetic the same loop would produce the 38 values
`{0.3 + i·0.1 : i = 0..37}` including both endpoints. -/
theorem claim_C4_amended :
    testRatesFPScaled.length = 37 ∧
    testRatesFPScaled.head? = some fpMinRateScaled ∧
    testRatesFPScaled.getLast? = some 281024616747919104 ∧
    ((2 : ℤ) ^ 58) ∉ testRatesFPScaled ∧
    testRates = (List.range 38).map
      (fun i => OPTIMIZATION_MIN_RATE + (i : ℚ) * OPTIMIZATION_STEP) :=
  ⟨by decide, by decide, by decide, by decide, testRates_range_eq⟩

end RemiTCI
